import Mathlib

/-!
Verification of the batched subtitle-translation server (`server.py`, v5.1).

The development shallowly embeds the translator pipeline: Python dicts holding
caption segments become structures, Python floats become rationals (`ℚ`),
Python strings are handled at the `List Char` level where the exact semantics
of `str.strip` / `str.split` / the parsing regex matter, and the outbound LLM
HTTP call becomes an oracle `Nat → Except String String` giving, for each
batch in call order, either the reply body text (`.ok`) or the message of the
exception raised by the call (`.error`, covering non-success status — raised
as "Erro Groq: {status}" —, timeout, transport error, malformed JSON body).
-/

namespace YTServer

/-- Embeds a caption segment dict `{'text': ..., 'start': ..., 'duration': ...}`
as produced by `group_segments` and consumed by `translate_batch`. Floats are
modelled as rationals. -/
structure Segment where
  text : String
  start : ℚ
  duration : ℚ
deriving DecidableEq, Repr

/-- Embeds the output dict of `translate_batch` (server.py lines 192-197):
`{'start': ..., 'duration': ..., 'original': ..., 'translated': ...}`. -/
structure TranslatedSeg where
  start : ℚ
  duration : ℚ
  original : String
  translated : String
deriving DecidableEq, Repr

/-- Python whitespace as used by `str.strip()` / `str.split()` and by the
regex class `\s` (ASCII range; the Unicode extras are irrelevant here). -/
def pyIsSpace (c : Char) : Bool :=
  c = ' ' ∨ c = '\t' ∨ c = '\n' ∨ c = '\r' ∨ c = '\x0b' ∨ c = '\x0c'

/-- Embeds Python `str.strip()` on a character list: drop whitespace from both
ends. -/
def stripChars (l : List Char) : List Char :=
  ((l.dropWhile pyIsSpace).reverse.dropWhile pyIsSpace).reverse

/-- Embeds Python `str.split('\n')`: split at every newline, keeping empty
pieces (`''.split('\n') == ['']`). -/
def splitNl : List Char → List (List Char)
  | [] => [[]]
  | c :: rest =>
    if c = '\n' then [] :: splitNl rest
    else
      match splitNl rest with
      | [] => [[c]]
      | g :: gs => (c :: g) :: gs

/-- Helper for Python `len(text.split())`: counts maximal runs of
non-whitespace characters; the flag records whether we are inside a run. -/
def wcAux : Bool → List Char → Nat
  | _, [] => 0
  | inWord, c :: rest =>
    if pyIsSpace c then wcAux false rest
    else (if inWord then 0 else 1) + wcAux true rest

/-- Embeds `len(text.split())` from `estimate_speech_rate` (server.py
line 203): the number of whitespace-separated words. -/
def wordCount (s : String) : Nat := wcAux false s.data

/-- Embeds `estimate_speech_rate` (server.py lines 202-207):
`words / 2.5 <= available_duration` yields `1.0`, otherwise
`min(estimated / available_duration, 1.5)`. -/
def estimate_speech_rate (text : String) (available_duration : ℚ) : ℚ :=
  let words : ℚ := (wordCount text : ℚ)
  let estimated : ℚ := words / (5 / 2)
  if estimated ≤ available_duration then 1
  else min (estimated / available_duration) (3 / 2)

/-- Embeds one iteration of the `for seg in transcript` loop body of
`group_segments` (server.py lines 129-141); the state is the pair
`(grouped, current)`. -/
def groupStep (max_duration : ℚ) (st : List Segment × Segment) (seg : Segment) :
    List Segment × Segment :=
  let (grouped, current) := st
  if current.text = "" then
    (grouped, ⟨seg.text, seg.start, seg.duration⟩)
  else if seg.start - current.start < max_duration then
    (grouped, ⟨current.text ++ " " ++ seg.text, current.start,
      (seg.start + seg.duration) - current.start⟩)
  else
    (grouped ++ [current], ⟨seg.text, seg.start, seg.duration⟩)

/-- Embeds `group_segments` (server.py lines 125-146): fold the loop body over
the transcript starting from `grouped = []`, `current = {'text': '', 'start':
0, 'duration': 0}`, then append the final `current` when its text is
non-empty. -/
def group_segments (transcript : List Segment) (max_duration : ℚ := 8) :
    List Segment :=
  let st := transcript.foldl (groupStep max_duration) ([], ⟨"", 0, 0⟩)
  if st.2.text = "" then st.1 else st.1 ++ [st.2]

/-- Value of an ASCII decimal digit string, as `int(match.group(1))` computes
it. -/
def digitsToNat (ds : List Char) : Nat :=
  ds.foldl (fun a c => 10 * a + (c.toNat - 48)) 0

/-- Embeds `re.match(r'\[(\d+)\]\s*(.+)', line.strip())` followed by
`int(group(1))` and `group(2).strip()` (server.py lines 186-188). `re.match`
anchors at the start of the stripped line, so a match requires a literal `[`,
a maximal non-empty digit run, a literal `]`, then — after the greedy `\s*` —
at least one character for `(.+)`, which runs to the end of the line (`.`
never crosses a newline, and each line contains none). -/
def parseLineChars (line : List Char) : Option (Nat × List Char) :=
  match stripChars line with
  | '[' :: rest =>
    match rest.takeWhile Char.isDigit, rest.dropWhile Char.isDigit with
    | [], _ => none
    | ds, ']' :: tail =>
      let body := tail.dropWhile pyIsSpace
      if body.isEmpty then none else some (digitsToNat ds, stripChars body)
    | _, _ => none
  | _ => none

/-- Parses a list of reply lines into `(index, translation)` pairs, in line
order; lines where the regex does not match are skipped. -/
def parseLines (ls : List (List Char)) : List (Nat × String) :=
  ls.filterMap fun l => (parseLineChars l).map fun p => (p.1, String.mk p.2)

/-- Embeds the parsing loop of `translate_batch` (server.py lines 184-188):
`translated_text.strip().split('\n')`, each line matched and collected. The
Python dict `translations` is embedded as this pair list in insertion order;
`dictGet` reproduces the dict lookup where later assignments overwrite
earlier ones. -/
def parseTranslations (reply : String) : List (Nat × String) :=
  parseLines (splitNl (stripChars reply.data))

/-- Lookup in the embedded dict: the value of the *last* pair with the given
key, mirroring that a later `translations[i] = ...` assignment overwrites an
earlier one. -/
def dictGet (m : List (Nat × String)) (i : Nat) : Option String :=
  (m.reverse.find? fun p => p.1 = i).map Prod.snd

/-- Embeds one iteration of the result loop of `translate_batch` (server.py
lines 191-197): for the pair `(i, seg)` from `enumerate(segments)`, build the
output dict with `translations.get(i, seg['text'])`. -/
def mkTranslated (translations : List (Nat × String)) (p : Nat × Segment) :
    TranslatedSeg :=
  { start := p.2.start, duration := p.2.duration, original := p.2.text,
    translated := (dictGet translations p.1).getD p.2.text }

/-- Embeds the body of `translate_batch` (server.py lines 149-199) given the
outcome of the one HTTP call it makes. `.error e` models any exception raised
by the call section (non-200 status raises `Exception(f"Erro Groq: ...")`,
timeout/transport errors and a malformed JSON body raise inside `requests`/
`json`); the exception propagates to the caller. On `.ok content` the reply
is parsed and each segment `i` (batch-relative `enumerate` index) gets
`translations.get(i, seg['text'])`. -/
def translate_batch (segments : List Segment) (resp : Except String String) :
    Except String (List TranslatedSeg) :=
  match resp with
  | .error e => .error e
  | .ok content =>
    .ok (segments.enum.map (mkTranslated (parseTranslations content)))

/-- Embeds the prompt lines `texts = [f"[{i}] {seg['text']}" for i, seg in
enumerate(segments)]` (server.py line 150). -/
def batchTexts (segments : List Segment) : List String :=
  segments.enum.map fun p => "[" ++ toString p.1 ++ "] " ++ p.2.text

/-- Embeds `all_texts = "\n".join(texts)` (server.py line 151). -/
def allTexts (segments : List Segment) : String :=
  String.intercalate "\n" (batchTexts segments)

/-- Embeds the user-prompt construction (server.py lines 162-164): the base
prompt, with `Contexto: {context}` prepended exactly when `context` is
non-empty (Python string truthiness). -/
def user_prompt (context : String) (segments : List Segment) : String :=
  let base := "Traduza para PT-BR:\n\n" ++ allTexts segments
  if context = "" then base else "Contexto: " ++ context ++ "\n\n" ++ base

/-- Fuel-driven worker for `pyRange`; the fuel bounds the number of steps so
the recursion is structural (and therefore computable by the kernel). -/
def pyRangeAux (stop step : Nat) : Nat → Nat → List Nat
  | 0, _ => []
  | fuel + 1, s =>
    if 0 < step ∧ s < stop then s :: pyRangeAux stop step fuel (s + step)
    else []

/-- Embeds Python `range(start, stop, step)` for a positive step: the
ascending indices `start, start + step, ...` strictly below `stop` (for
`step = 0` Python raises, modelled as the empty range). `stop - start` steps
of fuel always suffice since each step advances by at least one. -/
def pyRange (start stop step : Nat) : List Nat :=
  pyRangeAux stop step (stop - start) start

/-- Embeds the batching loop header `for i in range(0, len(grouped),
batch_size): batch = grouped[i:i + batch_size]` (server.py lines 281-282):
each loop index `i` yields the slice `grouped[i:i+B]`, i.e. `drop i` then
`take B` (Python slices clamp at the end of the list, as `take` does). -/
def pySlices (grouped : List Segment) (B : Nat) : List (List Segment) :=
  (pyRange 0 grouped.length B).map fun i => (grouped.drop i).take B

/-- Embeds the loop body of `translate` over the batches (server.py lines
281-285): batches are translated sequentially, successful results are
concatenated (`all_translated.extend`), and a raised exception aborts the
loop and propagates to the route's `except` handler, discarding the partial
results. `k` is the call-order index feeding the oracle. -/
def runBatches (oracle : Nat → Except String String) :
    Nat → List (List Segment) → Except String (List TranslatedSeg)
  | _, [] => .ok []
  | k, b :: bs =>
    match translate_batch b (oracle k) with
    | .error e => .error e
    | .ok r =>
      match runBatches oracle (k + 1) bs with
      | .error e => .error e
      | .ok rest => .ok (r ++ rest)

/-- Embeds the translation phase of the `/translate` route (server.py lines
278-285): split the grouped segments into batches of `batch_size = 50` and
run them in order. The result is the route's `all_translated` list, or the
error string of the first exception (which makes the whole request answer
`500 {error}`). -/
def translate (grouped : List Segment) (oracle : Nat → Except String String) :
    Except String (List TranslatedSeg) :=
  runBatches oracle 0 (pySlices grouped 50)

/-- Embeds the context selection of the `/translate` route (server.py lines
271-276): when the caller-supplied context is empty (falsy) and
`auto_context` is set, the generated context is used; otherwise the caller's
context is kept. `generated` stands for the string
`generate_context_from_content` would return. -/
def contextUsed (callerContext : String) (autoContext : Bool)
    (generated : String) : String :=
  if callerContext = "" ∧ autoContext then generated else callerContext

/-- Number of times `generate_context_from_content` is invoked by the
`/translate` route (server.py lines 272-275): once inside the guarded branch,
never otherwise. -/
def contextGenCalls (callerContext : String) (autoContext : Bool) : Nat :=
  if callerContext = "" ∧ autoContext then 1 else 0

/-- The user prompts of the LLM requests issued for one `/translate` request:
one per batch, each built by `translate_batch` from the same `context`
argument (server.py line 284 passes the loop-invariant `context`). -/
def requestPrompts (grouped : List Segment) (context : String) : List String :=
  (pySlices grouped 50).map (user_prompt context)

/-- The fold of `groupStep` never puts a segment with empty text into the
accumulated `grouped` list: both appending branches append the running
`current`, and they are only reached when `current['text']` is truthy. -/
lemma foldl_groupStep_text_ne_empty (md : ℚ) (l : List Segment)
    (st : List Segment × Segment) (h : ∀ g ∈ st.1, g.text ≠ "") :
    ∀ g ∈ (l.foldl (groupStep md) st).1, g.text ≠ "" := by
  induction l generalizing st with
  | nil => simpa using h
  | cons a l ih =>
    rw [List.foldl_cons]
    apply ih
    rcases st with ⟨grouped, current⟩
    by_cases h1 : current.text = ""
    · simpa [groupStep, h1] using h
    · by_cases h2 : a.start - current.start < md
      · simpa [groupStep, h1, h2] using h
      · simp only [groupStep, h1, h2, if_neg, if_false]
        intro g hg
        rcases List.mem_append.mp hg with hg | hg
        · exact h g hg
        · rcases List.mem_singleton.mp hg with rfl
          exact h1

/-- C9: every grouped segment produced by `group_segments` has a non-empty
text field: a group is appended to the output only when its accumulated text
is non-empty, so no element of the returned list has `text = ""`. -/
theorem c9_grouped_text_nonempty (transcript : List Segment) (md : ℚ)
    (g : Segment) (hg : g ∈ group_segments transcript md) : g.text ≠ "" := by
  unfold group_segments at hg
  set st := transcript.foldl (groupStep md) ([], ⟨"", 0, 0⟩) with hst
  have hinv : ∀ x ∈ st.1, x.text ≠ "" :=
    foldl_groupStep_text_ne_empty md transcript _ (by simp)
  by_cases h2 : st.2.text = ""
  · rw [if_pos h2] at hg
    exact hinv g hg
  · rw [if_neg h2] at hg
    rcases List.mem_append.mp hg with hg | hg
    · exact hinv g hg
    · rcases List.mem_singleton.mp hg with rfl
      exact h2

/-- Witness for C9 at a concrete transcript: the grouping of a one-segment
transcript contains that segment, whose text is non-empty. -/
theorem c9_witness :
    (⟨"hello", 0, 2⟩ : Segment) ∈ group_segments [⟨"hello", 0, 2⟩] 8 ∧
      (⟨"hello", 0, 2⟩ : Segment).text ≠ "" :=
  ⟨by decide,
    c9_grouped_text_nonempty [⟨"hello", 0, 2⟩] 8 ⟨"hello", 0, 2⟩ (by decide)⟩

/-- C10: for positive `available_duration` the returned rate lies in
`[1, 3/2]`; it is exactly `1` when `words / 2.5` fits in the available
duration, and otherwise it is the ratio capped at `3/2`. -/
theorem c10_rate_bounds (text : String) (d : ℚ) (hd : 0 < d) :
    1 ≤ estimate_speech_rate text d ∧ estimate_speech_rate text d ≤ 3 / 2 ∧
      ((wordCount text : ℚ) / (5 / 2) ≤ d → estimate_speech_rate text d = 1) ∧
      (d < (wordCount text : ℚ) / (5 / 2) →
        estimate_speech_rate text d =
          min ((wordCount text : ℚ) / (5 / 2) / d) (3 / 2)) := by
  unfold estimate_speech_rate
  by_cases h : (wordCount text : ℚ) / (5 / 2) ≤ d
  · refine ⟨by simp [h], by simp [h]; norm_num, fun _ => by simp [h],
      fun hlt => absurd h (not_le.mpr hlt)⟩
  · have hlt : d < (wordCount text : ℚ) / (5 / 2) := not_le.mp h
    have h1 : (1 : ℚ) < (wordCount text : ℚ) / (5 / 2) / d :=
      (one_lt_div hd).mpr hlt
    refine ⟨?_, ?_, fun hle => absurd hle h, fun _ => by simp [h]⟩
    · simp only [if_neg h]
      exact le_min h1.le (by norm_num)
    · simp only [if_neg h]
      exact min_le_right _ _

/-- Membership in a stripped list implies membership in the original list. -/
lemma mem_of_mem_stripChars {a : Char} {l : List Char} (h : a ∈ stripChars l) :
    a ∈ l := by
  unfold stripChars at h
  rw [List.mem_reverse] at h
  have h2 := (List.dropWhile_sublist pyIsSpace).subset h
  rw [List.mem_reverse] at h2
  exact (List.dropWhile_sublist pyIsSpace).subset h2

/-- The split of a character list at newlines is never the empty list of
pieces (Python `s.split('\n')` always returns at least one piece). -/
lemma splitNl_ne_nil (cs : List Char) : splitNl cs ≠ [] := by
  induction cs with
  | nil => simp [splitNl]
  | cons c rest ih =>
    by_cases hc : c = '\n'
    · simp [splitNl, hc]
    · simp only [splitNl, hc, if_false]
      rcases hsp : splitNl rest with _ | ⟨g, gs⟩
      · exact absurd hsp ih
      · simp

/-- No piece produced by `splitNl` contains a newline character. -/
lemma splitNl_no_newline (cs : List Char) :
    ∀ l ∈ splitNl cs, ∀ c ∈ l, c ≠ '\n' := by
  induction cs with
  | nil => simp [splitNl]
  | cons c rest ih =>
    intro l hl d hd
    by_cases hc : c = '\n'
    · rw [splitNl, if_pos hc] at hl
      rcases List.mem_cons.mp hl with rfl | hl
      · simp at hd
      · exact ih l hl d hd
    · rw [splitNl, if_neg hc] at hl
      rcases hsp : splitNl rest with _ | ⟨g, gs⟩
      · exact absurd hsp (splitNl_ne_nil rest)
      · rw [hsp] at hl
        rcases List.mem_cons.mp hl with rfl | hl
        · rcases List.mem_cons.mp hd with rfl | hd
          · exact hc
          · exact ih g (hsp ▸ List.mem_cons_self g gs) d hd
        · exact ih l (hsp ▸ List.mem_cons_of_mem g hl) d hd

/-- Every character of a captured translation body comes from the matched
line itself: the regex capture never reaches outside its line. -/
lemma parseLineChars_mem (l : List Char) (n : Nat) (b : List Char)
    (h : parseLineChars l = some (n, b)) : ∀ c ∈ b, c ∈ l := by
  intro c hc
  unfold parseLineChars at h
  split at h
  case h_2 => exact absurd h (by simp)
  case h_1 rest heq =>
    split at h
    case h_1 => exact absurd h (by simp)
    case h_3 => exact absurd h (by simp)
    case h_2 ds tail hds hdr =>
      dsimp only at h
      split at h
      · exact absurd h (by simp)
      · simp only [Option.some.injEq, Prod.mk.injEq] at h
        have hcb : c ∈ tail.dropWhile pyIsSpace :=
          mem_of_mem_stripChars (h.2 ▸ hc)
        have hct : c ∈ tail := (List.dropWhile_sublist pyIsSpace).subset hcb
        have h3 : c ∈ rest.dropWhile Char.isDigit := by
          rw [hds]; exact List.mem_cons_of_mem _ hct
        have h4 : c ∈ stripChars l := by
          rw [heq]
          exact List.mem_cons_of_mem _
            ((List.dropWhile_sublist Char.isDigit).subset h3)
        exact mem_of_mem_stripChars h4

/-- Any two sufficient amounts of fuel produce the same range. -/
lemma pyRangeAux_fuel (stop step : Nat) :
    ∀ f1 f2 s, stop - s ≤ f1 → stop - s ≤ f2 →
      pyRangeAux stop step f1 s = pyRangeAux stop step f2 s := by
  intro f1
  induction f1 with
  | zero =>
    intro f2 s h1 h2
    have hs : ¬ s < stop := by omega
    cases f2 with
    | zero => rfl
    | succ f2 => rw [pyRangeAux, pyRangeAux, if_neg (by omega)]
  | succ f1 ih =>
    intro f2 s h1 h2
    by_cases hc : 0 < step ∧ s < stop
    · cases f2 with
      | zero => omega
      | succ f2 =>
        rw [pyRangeAux, pyRangeAux, if_pos hc, if_pos hc]
        exact congrArg _ (ih f2 (s + step) (by omega) (by omega))
    · cases f2 with
      | zero =>
        rw [show pyRangeAux stop step 0 s = [] from rfl, pyRangeAux, if_neg hc]
      | succ f2 =>
        rw [pyRangeAux, pyRangeAux, if_neg hc, if_neg hc]

/-- An empty or zero-step Python range is empty. -/
lemma pyRange_nil (start stop step : Nat)
    (h : ¬(0 < step ∧ start < stop)) : pyRange start stop step = [] := by
  unfold pyRange
  cases hf : stop - start with
  | zero => rfl
  | succ f => rw [pyRangeAux, if_neg h]

/-- A non-empty Python range starts at `start` and continues from
`start + step`. -/
lemma pyRange_cons (start stop step : Nat) (hp : 0 < step)
    (hst : start < stop) :
    pyRange start stop step = start :: pyRange (start + step) stop step := by
  unfold pyRange
  cases hf : stop - start with
  | zero => omega
  | succ f =>
    rw [pyRangeAux, if_pos ⟨hp, hst⟩]
    exact congrArg _
      (pyRangeAux_fuel stop step f (stop - (start + step)) (start + step)
        (by omega) (by omega))

/-- Shifting both bounds of a Python range shifts every element. -/
lemma pyRange_shift (p d : Nat) (s t : Nat) :
    pyRange (s + d) (t + d) p = (pyRange s t p).map (· + d) := by
  suffices H : ∀ N s t, t - s ≤ N →
      pyRange (s + d) (t + d) p = (pyRange s t p).map (· + d) from
    H (t - s) s t le_rfl
  intro N
  induction N with
  | zero =>
    intro s t h
    rw [pyRange_nil _ _ _ (by omega), pyRange_nil _ _ _ (by omega)]
    rfl
  | succ N ih =>
    intro s t h
    by_cases hp : 0 < p
    · by_cases hst : s < t
      · rw [pyRange_cons _ _ _ hp hst, pyRange_cons _ _ _ hp (by omega),
          List.map_cons]
        rw [show s + d + p = s + p + d by omega]
        exact congrArg _ (ih (s + p) t (by omega))
      · rw [pyRange_nil _ _ _ (by omega), pyRange_nil _ _ _ (by omega)]
        rfl
    · rw [pyRange_nil _ _ _ (by omega), pyRange_nil _ _ _ (by omega)]
      rfl

/-- The number of elements of `range(s, t, p)` is the ceiling division
`⌈(t - s) / p⌉ = (t - s + p - 1) / p`. -/
lemma pyRange_length (p : Nat) (hp : 0 < p) (s t : Nat) :
    (pyRange s t p).length = (t - s + p - 1) / p := by
  suffices H : ∀ N s t, t - s ≤ N →
      (pyRange s t p).length = (t - s + p - 1) / p from H (t - s) s t le_rfl
  intro N
  induction N with
  | zero =>
    intro s t h
    rw [pyRange_nil _ _ _ (by omega), show t - s + p - 1 = p - 1 by omega,
      Nat.div_eq_of_lt (by omega)]
    rfl
  | succ N ih =>
    intro s t h
    by_cases hst : s < t
    · rw [pyRange_cons _ _ _ hp hst, List.length_cons, ih (s + p) t (by omega)]
      rcases le_or_lt (t - s) p with hc | hc
      · rw [show t - (s + p) + p - 1 = p - 1 by omega,
          Nat.div_eq_of_lt (by omega : p - 1 < p),
          show t - s + p - 1 = (t - s - 1) + p by omega,
          Nat.add_div_right _ hp, Nat.div_eq_of_lt (by omega : t - s - 1 < p)]
      · rw [show t - (s + p) + p - 1 = t - s - 1 by omega,
          show t - s + p - 1 = (t - s - 1) + p by omega,
          Nat.add_div_right _ hp]
    · rw [pyRange_nil _ _ _ (by omega), show t - s + p - 1 = p - 1 by omega,
        Nat.div_eq_of_lt (by omega)]
      rfl

/-- Unfolding of the batching loop: a non-empty segment list produces the
first slice `grouped[0:B]` followed by the batches of the remainder. -/
lemma pySlices_cons (xs : List Segment) (B : Nat) (hB : 0 < B)
    (hxs : xs ≠ []) :
    pySlices xs B = xs.take B :: pySlices (xs.drop B) B := by
  have hlen : 0 < xs.length := List.length_pos.mpr hxs
  unfold pySlices
  rw [pyRange_cons _ _ _ hB hlen, List.map_cons, List.drop_zero, Nat.zero_add]
  congr 1
  rcases le_or_lt xs.length B with hc | hc
  · rw [pyRange_nil _ _ _ (by omega),
      pyRange_nil _ _ _ (by rw [List.length_drop]; omega)]
    rfl
  · have hd : (xs.drop B).length = xs.length - B := List.length_drop B xs
    have hr : pyRange B xs.length B =
        (pyRange 0 (xs.length - B) B).map (· + B) := by
      have h2 := pyRange_shift B B 0 (xs.length - B)
      rwa [Nat.zero_add, show xs.length - B + B = xs.length by omega] at h2
    rw [hr, hd, List.map_map]
    apply List.map_congr_left
    intro i _
    simp only [Function.comp]
    rw [List.drop_drop, Nat.add_comm B i]

/-- The batch slices concatenate back to the original segment list. -/
lemma pySlices_flatten (B : Nat) (hB : 0 < B) (xs : List Segment) :
    (pySlices xs B).flatten = xs := by
  suffices H : ∀ N (xs : List Segment), xs.length ≤ N →
      (pySlices xs B).flatten = xs from H xs.length xs le_rfl
  intro N
  induction N with
  | zero =>
    intro xs h
    have : xs = [] := List.length_eq_zero.mp (by omega)
    subst this
    rw [show pySlices [] B = [] from by
      unfold pySlices; rw [pyRange_nil _ _ _ (by simp)]; rfl]
    rfl
  | succ N ih =>
    intro xs h
    rcases eq_or_ne xs [] with rfl | hne
    · rw [show pySlices [] B = [] from by
        unfold pySlices; rw [pyRange_nil _ _ _ (by simp)]; rfl]
      rfl
    · have hlen : 0 < xs.length := List.length_pos.mpr hne
      rw [pySlices_cons xs B hB hne, List.flatten_cons,
        ih (xs.drop B) (by simp [List.length_drop]; omega),
        List.take_append_drop]

/-- C4: for every segment list and positive batch size `B`, the batching
loop forms exactly `⌈N/B⌉` batches (`(N + B - 1) / B`), each the contiguous
slice `grouped[i:i+B]`, and concatenating the batches in order reproduces
the original list exactly (no overlap, gap, duplicate or omission); zero
segments give zero batches. -/
theorem c4_batching_partition (segs : List Segment) (B : Nat) (hB : 0 < B) :
    (pySlices segs B).length = (segs.length + B - 1) / B ∧
      (pySlices segs B).flatten = segs ∧
      (segs.length = 0 → pySlices segs B = []) := by
  refine ⟨?_, pySlices_flatten B hB segs, ?_⟩
  · unfold pySlices
    rw [List.length_map, pyRange_length B hB, Nat.sub_zero]
  · intro h0
    have : segs = [] := List.length_eq_zero.mp h0
    subst this
    unfold pySlices
    rw [pyRange_nil _ _ _ (by simp)]
    rfl

/-- Witness for C4: seven segments in batches of two give four batches that
flatten back to the input, matching `⌈7/2⌉ = 4`. -/
theorem c4_witness :
    0 < 2 ∧
      ((pySlices ((List.range 7).map fun _ => ⟨"s", 0, 0⟩) 2).length =
          (((List.range 7).map fun _ => (⟨"s", 0, 0⟩ : Segment)).length + 2 - 1)
            / 2 ∧
        (pySlices ((List.range 7).map fun _ => ⟨"s", 0, 0⟩) 2).flatten =
          ((List.range 7).map fun _ => (⟨"s", 0, 0⟩ : Segment)) ∧
        (((List.range 7).map fun _ => (⟨"s", 0, 0⟩ : Segment)).length = 0 →
          pySlices ((List.range 7).map fun _ => ⟨"s", 0, 0⟩) 2 = [])) :=
  ⟨by decide, c4_batching_partition ((List.range 7).map fun _ => ⟨"s", 0, 0⟩) 2
    (by decide)⟩

/-- C2 as stated is false on the code: `translate_batch` numbers the prompt
lines with `enumerate(segments)`, which restarts at 0 for every batch. With
51 one-word segments and batch size 50 there are two batches, and the first
rendered line of the second batch is `[0] s`, not `[50] s` as a global index
would require. -/
theorem c2_counterexample :
    (batchTexts
        ((pySlices ((List.range 51).map fun _ => ⟨"s", 0, 0⟩) 50).getD 1
          [])).head? = some "[0] s" ∧
      ("[0] s" : String) ≠ "[50] s" := by
  constructor
  · rfl
  · decide

/-- C2 amended: prompt lines are numbered batch-relative: within any batch,
the `j`-th rendered line is `[j] <text of the j-th segment of the batch>`,
so every batch's numbering restarts at `[0]`. `translate_batch` parses the
reply with the same batch-relative `enumerate` indices, so reassembly inside
a batch is still consistent. -/
theorem c2_batch_relative_indices (b : List Segment) (j : Nat)
    (hj : j < b.length) (hj2 : j < (batchTexts b).length) :
    (batchTexts b).get ⟨j, hj2⟩ =
      "[" ++ toString j ++ "] " ++ (b.get ⟨j, hj⟩).text := by
  unfold batchTexts
  rw [List.get_eq_getElem, List.getElem_map, List.getElem_enum,
    List.get_eq_getElem]

/-- Witness for C2 at a concrete batch: the second line of a two-segment
batch is rendered `[1] world`. -/
theorem c2_witness :
    1 < ([⟨"hello", 0, 1⟩, ⟨"world", 1, 1⟩] : List Segment).length ∧
      1 < (batchTexts [⟨"hello", 0, 1⟩, ⟨"world", 1, 1⟩]).length ∧
      (batchTexts [⟨"hello", 0, 1⟩, ⟨"world", 1, 1⟩]).get ⟨1, by decide⟩ =
        "[" ++ toString 1 ++ "] " ++
          (([⟨"hello", 0, 1⟩, ⟨"world", 1, 1⟩] : List Segment).get
            ⟨1, by decide⟩).text :=
  ⟨by decide, by decide,
    c2_batch_relative_indices [⟨"hello", 0, 1⟩, ⟨"world", 1, 1⟩] 1 (by decide)
      (by decide)⟩

/-- C7: context generation runs at most once per request — exactly once when
the caller supplied no context and opted into automatic context, never
otherwise — and the one resulting context string is passed unchanged into
every batch's prompt: whenever it is non-empty, every issued user prompt
starts with the byte-identical block `Contexto: <context>\n\n`. -/
theorem c7_context_once_shared (caller : String) (auto : Bool) (gen : String)
    (segs : List Segment) (p : String)
    (hp : p ∈ requestPrompts segs (contextUsed caller auto gen))
    (hne : contextUsed caller auto gen ≠ "") :
    contextGenCalls caller auto ≤ 1 ∧
      (contextGenCalls caller auto = 1 ↔ caller = "" ∧ auto = true) ∧
      ∃ rest, p = "Contexto: " ++ contextUsed caller auto gen ++ "\n\n" ++
        rest := by
  refine ⟨?_, ?_, ?_⟩
  · unfold contextGenCalls
    split <;> omega
  · unfold contextGenCalls
    by_cases hca : caller = "" ∧ auto = true
    · simp [hca]
    · rw [if_neg hca]
      exact ⟨fun h01 => absurd h01 (by omega), fun hc => absurd hc hca⟩
  · obtain ⟨b, hb, rfl⟩ := List.mem_map.mp hp
    unfold user_prompt
    rw [if_neg hne]
    exact ⟨_, rfl⟩

/-- Witness for C7: empty caller context with automatic context on, a
one-batch request; the single prompt carries the generated context block. -/
theorem c7_witness :
    ("Contexto: ctx\n\nTraduza para PT-BR:\n\n[0] hi" : String) ∈
        requestPrompts [⟨"hi", 0, 1⟩] (contextUsed "" true "ctx") ∧
      contextUsed "" true "ctx" ≠ "" ∧
      (contextGenCalls "" true ≤ 1 ∧
        (contextGenCalls "" true = 1 ↔ ("" : String) = "" ∧ true = true) ∧
        ∃ rest, ("Contexto: ctx\n\nTraduza para PT-BR:\n\n[0] hi" : String) =
          "Contexto: " ++ contextUsed "" true "ctx" ++ "\n\n" ++ rest) :=
  ⟨by decide, by decide,
    c7_context_once_shared "" true "ctx" [⟨"hi", 0, 1⟩] _ (by decide)
      (by decide)⟩

/-- C6: a successfully returned reply with zero parseable bracketed lines
yields the empty mapping, so `translate_batch` still returns successfully —
never an error — with one output per segment, each falling back to its
original text. -/
theorem c6_empty_mapping_fallback (segments : List Segment) (body : String)
    (h : parseTranslations body = []) :
    ∃ out, translate_batch segments (.ok body) = .ok out ∧
      out.length = segments.length ∧ ∀ t ∈ out, t.translated = t.original := by
  refine ⟨_, rfl, ?_, ?_⟩
  · simp [List.enum_length]
  · intro t ht
    obtain ⟨p, hp, rfl⟩ := List.mem_map.mp ht
    simp [mkTranslated, h, dictGet]

/-- Witness for C6: a reply with no `[N]` marker gives a successful batch
result whose single segment keeps its original text. -/
theorem c6_witness :
    parseTranslations "tudo sem marcador" = [] ∧
      ∃ out, translate_batch [⟨"hi", 0, 1⟩] (.ok "tudo sem marcador") = .ok out ∧
        out.length = [(⟨"hi", 0, 1⟩ : Segment)].length ∧
        ∀ t ∈ out, t.translated = t.original :=
  ⟨by decide,
    c6_empty_mapping_fallback [⟨"hi", 0, 1⟩] "tudo sem marcador" (by decide)⟩

/-- C8: reply lines are mapped to segments by the integer inside the
brackets, not by line position — the out-of-order reply `[2]/[0]/[1]` still
assigns each translation to the right index; a later occurrence of the same
index overwrites an earlier one (dict assignment), and lines the regex does
not match (blank lines, stray commentary) are ignored. -/
theorem c8_parse_by_index (m : List (Nat × String)) (n k : Nat) (t : String)
    (hk : k ≠ n) (ls1 ls2 : List (List Char)) (l : List Char)
    (hl : parseLineChars l = none) :
    (dictGet (parseTranslations "[2] c\n[0] a\n[1] b") 0 = some "a" ∧
      dictGet (parseTranslations "[2] c\n[0] a\n[1] b") 1 = some "b" ∧
      dictGet (parseTranslations "[2] c\n[0] a\n[1] b") 2 = some "c") ∧
    dictGet (m ++ [(n, t)]) n = some t ∧
    dictGet (m ++ [(n, t)]) k = dictGet m k ∧
    parseLines (ls1 ++ l :: ls2) = parseLines (ls1 ++ ls2) := by
  refine ⟨by decide, ?_, ?_, ?_⟩
  · unfold dictGet
    rw [List.reverse_append, List.reverse_singleton, List.singleton_append,
      List.find?_cons_of_pos _ (by simp)]
    rfl
  · unfold dictGet
    rw [List.reverse_append, List.reverse_singleton, List.singleton_append,
      List.find?_cons_of_neg _ (by simp [Ne.symm hk])]
  · unfold parseLines
    rw [show l :: ls2 = [l] ++ ls2 from rfl, ← List.append_assoc,
      List.filterMap_append (ls1 ++ [l]), List.filterMap_append ls1,
      List.filterMap_append ls1]
    simp [hl]

/-- Witness for C8 at concrete inputs: overwrite of index 0, lookup of the
untouched index 1, and a skipped empty line. -/
theorem c8_witness :
    (1 : Nat) ≠ 0 ∧ parseLineChars [] = none ∧
      ((dictGet (parseTranslations "[2] c\n[0] a\n[1] b") 0 = some "a" ∧
        dictGet (parseTranslations "[2] c\n[0] a\n[1] b") 1 = some "b" ∧
        dictGet (parseTranslations "[2] c\n[0] a\n[1] b") 2 = some "c") ∧
      dictGet ([(0, "x")] ++ [(0, "y")]) 0 = some "y" ∧
      dictGet ([(0, "x")] ++ [(0, "y")]) 1 = dictGet [(0, "x")] 1 ∧
      parseLines ([] ++ [] :: ["[0] a".data]) =
        parseLines ([] ++ ["[0] a".data])) :=
  ⟨by decide, by decide,
    c8_parse_by_index [(0, "x")] 0 1 "y" (by decide) [] ["[0] a".data] []
      (by decide)⟩

/-- C3 as stated is false on the code: the regex is applied per line, so a
translation continuing on a second physical line is cut at the end of its
own line and the continuation is dropped, instead of being captured up to
the next bracketed marker or end of text. -/
theorem c3_counterexample :
    parseTranslations "[0] linha um\nsegunda linha" = [(0, "linha um")] ∧
      dictGet (parseTranslations "[0] linha um\nsegunda linha") 0 ≠
        some "linha um\nsegunda linha" := by decide

/-- C3 amended: parsing splits the reply at newlines and matches each line
independently; every extracted translation is confined to its own line (it
contains no newline), pairs extracted from a line do not depend on the other
lines (`parseLines` is append-homomorphic), and a continuation line without
its own marker is simply dropped. -/
theorem c3_line_local_parsing (reply : String) (n : Nat) (t : String)
    (hmem : (n, t) ∈ parseTranslations reply) (ls1 ls2 : List (List Char)) :
    (∀ c ∈ t.data, c ≠ '\n') ∧
      parseLines (ls1 ++ ls2) = parseLines ls1 ++ parseLines ls2 ∧
      parseTranslations "[0] linha um\nsegunda linha" = [(0, "linha um")] := by
  refine ⟨?_, List.filterMap_append _ _ _, by decide⟩
  intro c hc
  unfold parseTranslations parseLines at hmem
  obtain ⟨l, hl, hpl⟩ := List.mem_filterMap.mp hmem
  rcases hpc : parseLineChars l with _ | ⟨n', b⟩
  · rw [hpc] at hpl; exact absurd hpl (by simp)
  · rw [hpc] at hpl
    simp only [Option.map_some', Option.some.injEq, Prod.mk.injEq] at hpl
    have hcb : c ∈ b := by
      have : t.data = b := by rw [← hpl.2]
      exact this ▸ hc
    exact splitNl_no_newline _ l hl c (parseLineChars_mem l n' b hpc c hcb)

/-- Witness for C3 at the concrete truncating reply. -/
theorem c3_witness :
    ((0 : Nat), "linha um") ∈ parseTranslations "[0] linha um\nsegunda linha" ∧
      ((∀ c ∈ "linha um".data, c ≠ '\n') ∧
        parseLines ([] ++ []) = parseLines [] ++ parseLines [] ∧
        parseTranslations "[0] linha um\nsegunda linha" = [(0, "linha um")]) :=
  ⟨by decide,
    c3_line_local_parsing "[0] linha um\nsegunda linha" 0 "linha um"
      (by decide) [] []⟩

/-- The fields of an input segment carried over by `translate_batch`. -/
def segKey (s : Segment) : ℚ × ℚ × String := (s.start, s.duration, s.text)

/-- The carried-over fields of an output segment. -/
def outKey (t : TranslatedSeg) : ℚ × ℚ × String := (t.start, t.duration, t.original)

/-- On a successful HTTP call `translate_batch` always succeeds, and its
output reproduces the batch's `start`/`duration`/`text` fields positionally. -/
lemma translate_batch_ok_map (segments : List Segment) (body : String)
    (out : List TranslatedSeg)
    (h : translate_batch segments (.ok body) = .ok out) :
    out.map outKey = segments.map segKey := by
  rw [translate_batch] at h
  rw [← Except.ok.inj h, List.map_map,
    show outKey ∘ mkTranslated (parseTranslations body) = segKey ∘ Prod.snd
      from rfl,
    ← List.map_map, List.enum_map_snd]

/-- A successful run of the batch loop reproduces the carried-over fields of
the concatenation of its batches, positionally. -/
lemma runBatches_ok_map (oracle : Nat → Except String String) :
    ∀ (bs : List (List Segment)) (k : Nat) (out : List TranslatedSeg),
      runBatches oracle k bs = .ok out →
      out.map outKey = bs.flatten.map segKey := by
  intro bs
  induction bs with
  | nil =>
    intro k out h
    rw [runBatches] at h
    rw [← Except.ok.inj h]
    rfl
  | cons b bs ih =>
    intro k out h
    rw [runBatches] at h
    rcases ho : oracle k with e | body
    · rw [ho] at h
      simp [translate_batch] at h
    · rw [ho] at h
      rcases htb : translate_batch b (.ok body) with e | r
      · rw [htb] at h
        simp at h
      · rw [htb] at h
        rcases hrb : runBatches oracle (k + 1) bs with e | rest
        · rw [hrb] at h
          simp at h
        · rw [hrb] at h
          rw [← Except.ok.inj h, List.flatten_cons, List.map_append,
            List.map_append, translate_batch_ok_map b body r htb, ih _ _ hrb]

/-- C5: a translation run that returns successfully returns exactly one
output segment per input segment — never a partial or shorter list — and the
i-th output segment carries the i-th input segment's `start`, `duration` and
source text (as `original`), positionally in input order, with the
`translated` field added. (The v5.1 segment dicts carry no separate `index`
key; a segment's identity is its position.) -/
theorem c5_output_matches_input (segs : List Segment)
    (oracle : Nat → Except String String) (out : List TranslatedSeg)
    (h : translate segs oracle = .ok out) :
    out.length = segs.length ∧
      ∀ i (hi : i < out.length) (hi2 : i < segs.length),
        out[i].start = segs[i].start ∧ out[i].duration = segs[i].duration ∧
          out[i].original = segs[i].text := by
  have hmap : out.map outKey = segs.map segKey := by
    have h2 := runBatches_ok_map oracle (pySlices segs 50) 0 out h
    rwa [pySlices_flatten 50 (by omega) segs] at h2
  have hlen : out.length = segs.length := by
    have h3 := congrArg List.length hmap
    simpa using h3
  refine ⟨hlen, ?_⟩
  intro i hi hi2
  have h5 := List.getElem_of_eq hmap
    (show i < (out.map outKey).length by rw [List.length_map]; exact hi)
  rw [List.getElem_map, List.getElem_map] at h5
  exact ⟨congrArg Prod.fst h5, congrArg (fun q => q.2.1) h5,
    congrArg (fun q => q.2.2) h5⟩

/-- Witness for C5: a two-segment request with a well-formed reply; the
successful output pairs each input with its translation, preserving fields. -/
theorem c5_witness :
    translate [⟨"hello", 0, 1⟩, ⟨"world", 1, 1⟩]
        (fun _ => .ok "[0] ola\n[1] mundo") =
      .ok [⟨0, 1, "hello", "ola"⟩, ⟨1, 1, "world", "mundo"⟩] ∧
      (([⟨0, 1, "hello", "ola"⟩, ⟨1, 1, "world", "mundo"⟩] :
          List TranslatedSeg).length =
        ([⟨"hello", 0, 1⟩, ⟨"world", 1, 1⟩] : List Segment).length ∧
      ∀ i (_hi : i < ([⟨0, 1, "hello", "ola"⟩, ⟨1, 1, "world", "mundo"⟩] :
          List TranslatedSeg).length)
        (hi2 : i < ([⟨"hello", 0, 1⟩, ⟨"world", 1, 1⟩] :
          List Segment).length),
        ([⟨0, 1, "hello", "ola"⟩, ⟨1, 1, "world", "mundo"⟩] :
            List TranslatedSeg)[i].start =
          ([⟨"hello", 0, 1⟩, ⟨"world", 1, 1⟩] : List Segment)[i].start ∧
        ([⟨0, 1, "hello", "ola"⟩, ⟨1, 1, "world", "mundo"⟩] :
            List TranslatedSeg)[i].duration =
          ([⟨"hello", 0, 1⟩, ⟨"world", 1, 1⟩] : List Segment)[i].duration ∧
        ([⟨0, 1, "hello", "ola"⟩, ⟨1, 1, "world", "mundo"⟩] :
            List TranslatedSeg)[i].original =
          ([⟨"hello", 0, 1⟩, ⟨"world", 1, 1⟩] : List Segment)[i].text) :=
  ⟨by rfl,
    c5_output_matches_input [⟨"hello", 0, 1⟩, ⟨"world", 1, 1⟩]
      (fun _ => .ok "[0] ola\n[1] mundo")
      [⟨0, 1, "hello", "ola"⟩, ⟨1, 1, "world", "mundo"⟩] (by rfl)⟩

/-- A failing LLM call for some batch, with every earlier batch's call
succeeding, makes the whole batch loop return that batch's error: the raised
exception aborts the loop. -/
lemma runBatches_error (oracle : Nat → Except String String) (e : String) :
    ∀ (bs : List (List Segment)) (k0 k : Nat), k < bs.length →
      oracle (k0 + k) = .error e →
      (∀ j, j < k → ∃ s, oracle (k0 + j) = .ok s) →
      runBatches oracle k0 bs = .error e := by
  intro bs
  induction bs with
  | nil =>
    intro k0 k hk hfail hbefore
    exact absurd hk (by simp)
  | cons b bs ih =>
    intro k0 k hk hfail hbefore
    rw [runBatches]
    cases k with
    | zero =>
      rw [show k0 + 0 = k0 from rfl] at hfail
      rw [hfail]
      rfl
    | succ j =>
      obtain ⟨s, hs⟩ := hbefore 0 (by omega)
      rw [show k0 + 0 = k0 from rfl] at hs
      rw [hs]
      have hrec : runBatches oracle (k0 + 1) bs = .error e := by
        apply ih (k0 + 1) j (by simpa using hk)
        · rw [show k0 + 1 + j = k0 + (j + 1) by omega]
          exact hfail
        · intro j2 hj2
          rw [show k0 + 1 + j2 = k0 + (j2 + 1) by omega]
          exact hbefore (j2 + 1) (by omega)
      simp only [translate_batch, hrec]

/-- C1 as stated is false on the code: with 51 segments there are two
batches, and when the first batch's LLM call fails the whole request fails
with that error — the failed batch does not fall back to original text, the
second batch is never processed, and the failure is surfaced to the caller
as a request-level error. -/
theorem c1_counterexample :
    (pySlices ((List.range 51).map fun _ => ⟨"s", 0, 0⟩) 50).length = 2 ∧
      translate ((List.range 51).map fun _ => ⟨"s", 0, 0⟩)
          (fun k => if k = 0 then .error "Erro Groq: 500" else .ok "[0] ok") =
        .error "Erro Groq: 500" :=
  ⟨rfl, rfl⟩

/-- C1 amended: there is no per-batch recovery. If the LLM call of any batch
fails (non-success status, timeout, transport error, malformed JSON body),
`translate_batch` raises, the exception propagates out of the batch loop,
the remaining batches are not processed, and the request fails as a whole
with that error (HTTP 500 `{error}`) instead of returning fallback
segments. -/
theorem c1_batch_failure_aborts (segs : List Segment)
    (oracle : Nat → Except String String) (e : String) (k : Nat)
    (hk : k < (pySlices segs 50).length)
    (hfail : oracle k = .error e)
    (hbefore : ∀ j, j < k → ∃ s, oracle j = .ok s) :
    translate segs oracle = .error e := by
  unfold translate
  apply runBatches_error oracle e (pySlices segs 50) 0 k hk
  · simpa using hfail
  · intro j hj
    simpa using hbefore j hj

/-- Witness for the amended C1 at the concrete two-batch request whose first
batch call fails. -/
theorem c1_witness :
    0 < (pySlices ((List.range 51).map fun _ => ⟨"s", 0, 0⟩) 50).length ∧
      translate ((List.range 51).map fun _ => ⟨"s", 0, 0⟩)
          (fun k => if k = 0 then .error "Erro Groq: 500" else .ok "[0] ok") =
        .error "Erro Groq: 500" :=
  ⟨by decide,
    c1_batch_failure_aborts ((List.range 51).map fun _ => ⟨"s", 0, 0⟩)
      (fun k => if k = 0 then .error "Erro Groq: 500" else .ok "[0] ok")
      "Erro Groq: 500" 0 (by decide) rfl
      (fun j hj => absurd hj (by omega))⟩

/-- Witness for C10 at a concrete input: eight words over one second gives
the capped rate `3/2`, inside the stated bounds. -/
theorem c10_witness :
    (0 : ℚ) < 1 ∧
      (1 ≤ estimate_speech_rate "a b c d e f g h" 1 ∧
        estimate_speech_rate "a b c d e f g h" 1 ≤ 3 / 2 ∧
        ((wordCount "a b c d e f g h" : ℚ) / (5 / 2) ≤ 1 →
          estimate_speech_rate "a b c d e f g h" 1 = 1) ∧
        (1 < (wordCount "a b c d e f g h" : ℚ) / (5 / 2) →
          estimate_speech_rate "a b c d e f g h" 1 =
            min ((wordCount "a b c d e f g h" : ℚ) / (5 / 2) / 1) (3 / 2))) :=
  ⟨by norm_num, c10_rate_bounds "a b c d e f g h" 1 (by norm_num)⟩

end YTServer
